import Mathlib

/-!
Shallow embedding of the Honeycomb dependency-task scheduler
(`src/common/Honey/Thread/DepTask.h`) and the sequential semantics of the
atomic wrappers (`src/common/Honey/Thread/Atomic.h`).

The repository ships `DepTask.h` (class declarations and the inline member
functions) but not `DepTask.cpp` (the bodies of `DepSched::bind`,
`DepSched::enqueue`, `DepTask::operator()`, `DepTask::finalize_`), nor
`Honey/Thread/Future/Util.h` (class `PackagedTask`), nor `Honey/Graph/Dep.h`
(classes `DepNode`, `DepGraph`).  Definitions for those parts are modelled
from the specification and are marked `Modelled from the spec:` in their doc
comments; everything else is translated directly from the header sources.
-/

namespace Honeycomb

/-- Enum `DepTask::State` (DepTask.h lines 64-71): `idle`, `queued`,
`depUpWait` (waiting for upstream tasks), `exec` (executing the functor),
`depDownWait` (waiting for downstream tasks). -/
inductive DepTask.State where
  | idle
  | queued
  | depUpWait
  | exec
  | depDownWait
deriving DecidableEq, Repr

/-- Modelled from the spec: the worker `Thread` handle (the common
`Thread.cpp` carrying `Thread::interrupt` is not in the source tree; the mac
platform file in the tree has no interrupt logic).  Spec section 5:
"`Task::interrupt(reason)` sets a per-thread interruption flag on the worker
currently executing the task".  An exception/reason is identified by a `Nat`
token. -/
structure ThreadHandle where
  intFlag : Bool
  intReason : Option Nat
  priority : Int
deriving DecidableEq, Repr

/-- Modelled from the spec: `Thread::interrupt(e)` flags the thread with the
given reason. -/
def ThreadHandle.interrupt (th : ThreadHandle) (e : Nat) : ThreadHandle :=
  { th with intFlag := true, intReason := some e }

/-- Modelled from the spec: `Thread::interruptRequested()` reads the flag. -/
def ThreadHandle.interruptRequested (th : ThreadHandle) : Bool :=
  th.intFlag

/-- Modelled from the spec: `Thread::setPriority`. -/
def ThreadHandle.setPriority (th : ThreadHandle) (p : Int) : ThreadHandle :=
  { th with priority := p }

/-- Modelled from the spec: `DepNode` (`Honey/Graph/Dep.h` is not in the
source tree).  Spec section 3: "A vertex owns a key (Id) and two disjoint
edge sets: `out` (upstream) and `in` (downstream)".  Ids are `Nat` tokens. -/
structure DepNode where
  key : Nat
  outLinks : List Nat
  inLinks : List Nat
deriving DecidableEq, Repr

/-- Modelled from the spec: `DepNode::setKey`. -/
def DepNode.setKey (n : DepNode) (k : Nat) : DepNode :=
  { n with key := k }

/-- The data members of class `DepTask` (DepTask.h lines 86-101).  The
C++ `_vertex` pointer is represented on the scheduler side (membership of the
task's id in the scheduler's graph); `_sched` is represented by the owning
scheduler's numeric identity; `_root` (a weak pointer) by the root task's id. -/
structure DepTask where
  depNode : DepNode
  state : DepTask.State
  regCount : Nat
  sched : Option Nat
  root : Option Nat
  bindId : Nat
  bindDirty : Bool
  depUpWaitInit : Nat
  depUpWait : Nat
  depDownWaitInit : Nat
  depDownWait : Nat
  onStack : Bool
  thread : Option ThreadHandle
  priority : Int
deriving DecidableEq, Repr

/-- Member `DepTask::active` (DepTask.h line 34):
`return _state != State::idle;`. -/
def DepTask.active (t : DepTask) : Bool :=
  decide (t.state ≠ DepTask.State.idle)

/-- Member `DepTask::interrupt` (DepTask.h line 37):
`Mutex::Scoped _(_lock); if (_thread) _thread->interrupt(e);` —
forwards to the executing thread when one is attached, otherwise does
nothing. -/
def DepTask.interrupt (t : DepTask) (e : Nat) : DepTask :=
  match t.thread with
  | none => t
  | some th => { t with thread := some (th.interrupt e) }

/-- Member `DepTask::interruptRequested` (DepTask.h line 39):
`return _thread ? _thread->interruptRequested() : false;`. -/
def DepTask.interruptRequested (t : DepTask) : Bool :=
  match t.thread with
  | none => false
  | some th => th.interruptRequested

/-- Member `DepTask::setPriority` (DepTask.h line 42):
`_priority = priority; if (_thread) _thread->setPriority(_priority);`. -/
def DepTask.setPriority (t : DepTask) (p : Int) : DepTask :=
  { t with
    priority := p
    thread := match t.thread with
      | none => none
      | some th => some (th.setPriority p) }

/-- Member `DepTask::setId` (DepTask.h line 47):
`assert(!_regCount, "Must unregister prior to modifying"); _depNode.setKey(id);`.
The assertion is embedded as an `Except` failure. -/
def DepTask.setId (t : DepTask) (i : Nat) : Except String DepTask :=
  if t.regCount ≠ 0 then Except.error "Must unregister prior to modifying"
  else Except.ok { t with depNode := t.depNode.setKey i }

/-- Member `DepTask::getId` (DepTask.h line 48). -/
def DepTask.getId (t : DepTask) : Nat :=
  t.depNode.key

/-- Member `DepTask::deps` (DepTask.h line 55):
`assert(!_regCount, "Must unregister prior to modifying"); return _depNode;`.
The returned mutable node is embedded as the node value. -/
def DepTask.deps (t : DepTask) : Except String DepNode :=
  if t.regCount ≠ 0 then Except.error "Must unregister prior to modifying"
  else Except.ok t.depNode

/-! ### Packaged callable / future (modelled from the spec)

`Honey/Thread/Future/Util.h` (class `PackagedTask` and class `Future`) is not
in the source tree.  The result cell is modelled from spec sections 3 and
4.3: a one-shot cell with phases unset, ready-pending, ready; `future()` may
be called at most once per arming and fails with `FutureAlreadyRetrieved`
otherwise; `setReady` publishes the pending result to waiters, and its
boolean argument additionally requests the reset that re-arms the cell for
the next execution (section 4.4 requires the transition into `Idle` both to
publish the result and to re-arm the cell, and the single call site in the
tree, `DepTask_::resetFunctor` at DepTask.h line 129, passes `true`). -/

/-- Phases of the result cell (spec section 3): unset, ready-pending
(value computed but not yet published), ready. -/
inductive CellPhase where
  | unset
  | readyPending
  | ready
deriving DecidableEq, Repr

/-- A functor outcome: a computed value or a captured failure (exception),
both identified by `Nat` tokens. -/
inductive Outcome where
  | value : Nat → Outcome
  | failure : Nat → Outcome
deriving DecidableEq, Repr

/-- Modelled from the spec: the state shared between the promise side of the
cell and a retrieved `Future`. -/
structure FutureState where
  phase : CellPhase
  result : Option Outcome
deriving DecidableEq, Repr

/-- Modelled from the spec: `Future::get()` blocks until the cell is ready.
In the sequential embedding `none` means the consumer remains blocked. -/
def FutureState.get (s : FutureState) : Option Outcome :=
  if s.phase = CellPhase.ready then s.result else none

/-- Error raised by `future()` on a second retrieval in the same arming. -/
inductive FutureErr where
  | futureAlreadyRetrieved
deriving DecidableEq, Repr

/-- Modelled from the spec: class `PackagedTask` (`Future/Util.h` is not in
the source tree).  `func` is the outcome the packaged nullary callable
produces when run (value or failure). -/
structure PackagedTask where
  func : Outcome
  st : FutureState
  futureRetrieved : Bool
deriving DecidableEq, Repr

/-- Modelled from the spec (section 4.3 step 1):
`invoke_delayedReady()` executes the callable, captures either a value or a
failure, but sets the cell to ready-pending: consumers that call `get()`
remain blocked. -/
def PackagedTask.invoke_delayedReady (c : PackagedTask) : PackagedTask :=
  { c with st := { phase := CellPhase.readyPending, result := some c.func } }

/-- Modelled from the spec: `PackagedTask::setReady(reset)`.  Publishes the
pending result — the state any retrieved `Future` observes becomes ready —
and, when `reset` is true, additionally re-arms the cell (fresh unset state,
`futureRetrieved` cleared) for the next execution.  Returns the cell
afterwards together with the published state the waiters see. -/
def PackagedTask.setReady (c : PackagedTask) (reset : Bool) :
    PackagedTask × FutureState :=
  let pub : FutureState := { c.st with phase := CellPhase.ready }
  if reset then
    ({ c with st := { phase := CellPhase.unset, result := none },
              futureRetrieved := false }, pub)
  else
    ({ c with st := pub }, pub)

/-- Modelled from the spec: `PackagedTask::future()` — at most one retrieval
per arming, [FutureAlreadyRetrieved] otherwise.  On success it returns the
cell (now marked retrieved) and the consumer handle's shared state. -/
def PackagedTask.future (c : PackagedTask) :
    Except FutureErr (PackagedTask × FutureState) :=
  if c.futureRetrieved then Except.error FutureErr.futureAlreadyRetrieved
  else Except.ok ({ c with futureRetrieved := true }, c.st)

/-- Member `DepTask_::future` (DepTask.h line 122): `return _func.future();`. -/
def DepTask_.future (c : PackagedTask) :
    Except FutureErr (PackagedTask × FutureState) :=
  c.future

/-- Member `DepTask_::exec` (DepTask.h line 128):
`_func.invoke_delayedReady();`. -/
def DepTask_.exec (c : PackagedTask) : PackagedTask :=
  c.invoke_delayedReady

/-- Member `DepTask_::resetFunctor` (DepTask.h line 129):
`_func.setReady(true);`. -/
def DepTask_.resetFunctor (c : PackagedTask) : PackagedTask × FutureState :=
  c.setReady true

/-- Modelled from the spec (section 4.4): the step a worker performs between
`Executing` and `WaitDownstream` (part of `DepTask::operator()`, whose body
is not in the source tree): the packaged callable is invoked with delayed
readiness and the state moves to `depDownWait` with the downstream barrier
counter loaded from its initial value. -/
def execStep (t : DepTask) (c : PackagedTask) : DepTask × PackagedTask :=
  ({ t with state := DepTask.State.depDownWait,
            depDownWait := t.depDownWaitInit },
   DepTask_.exec c)

/-- Modelled from the spec (section 4.4): `DepTask::finalize_` (body not in
the source tree) — the transition from `WaitDownstream` back to `Idle`:
resets `bindId = 0`, clears `sched`, `root` and the worker thread pointer,
and calls the visible `DepTask_::resetFunctor` (DepTask.h line 129) on the
result cell.  Returns the task, the cell afterwards, and the published state
the root's waiters observe. -/
def finalize_ (t : DepTask) (c : PackagedTask) :
    DepTask × PackagedTask × FutureState :=
  let r := DepTask_.resetFunctor c
  ({ t with state := DepTask.State.idle, bindId := 0,
            sched := none, root := none, thread := none },
   r.1, r.2)

/-! ### Atomic operations (`Atomic.h`), sequential embedding

Machine integers are embedded as `Nat` values with wrap-around arithmetic
modulo `2 ^ w` for a `w`-bit representation; signed intermediate arithmetic
is carried out in `Int` and reduced by `wrap`.  Each `atomic::Op` CAS loop
(`do { v = val; } while (!cas(val, f v, v, o));`, Atomic.h lines 62-95)
terminates after its first iteration in a single-threaded embedding, so an
operation is the pair (returned value, new cell value). -/

/-- Reduce an `Int` into the `w`-bit representation range `[0, 2 ^ w)`. -/
def wrap (w : Nat) (x : Int) : Nat :=
  (x % ((2 : Int) ^ w)).toNat

namespace atomicOp

/-- Member `atomic::Op::cas` (Atomic.h line 60): if the cell equals the
comparand it is assigned `newVal` and true is returned. -/
def cas (cell newVal cmp : Nat) : Bool × Nat :=
  if cell = cmp then (true, newVal) else (false, cell)

/-- Member `atomic::Op::inc` (Atomic.h line 69): increments the cell,
returns the initial value. -/
def inc (w cell : Nat) : Nat × Nat :=
  (cell, wrap w ((cell : Int) + 1))

/-- Member `atomic::Op::dec` (Atomic.h line 74): decrements the cell,
returns the initial value. -/
def dec (w cell : Nat) : Nat × Nat :=
  (cell, wrap w ((cell : Int) - 1))

/-- Member `atomic::Op::add` (Atomic.h line 79): `val += rhs`, returns the
initial value. -/
def add (w cell rhs : Nat) : Nat × Nat :=
  (cell, wrap w ((cell : Int) + (rhs : Int)))

/-- Member `atomic::Op::sub` (Atomic.h line 83): `val -= rhs`, returns the
initial value. -/
def sub (w cell rhs : Nat) : Nat × Nat :=
  (cell, wrap w ((cell : Int) - (rhs : Int)))

end atomicOp

namespace AtomicInt

/-- Member `Atomic<T,true>::operator++()` (Atomic.h line 185):
`return Op::inc(_val) + 1;` — pre-increment, returns the new value. -/
def incPre (w cell : Nat) : Nat × Nat :=
  let r := atomicOp.inc w cell
  (wrap w ((r.1 : Int) + 1), r.2)

/-- Member `Atomic<T,true>::operator--()` (Atomic.h line 189):
`return Op::dec(_val) - 1;` — pre-decrement, returns the new value. -/
def decPre (w cell : Nat) : Nat × Nat :=
  let r := atomicOp.dec w cell
  (wrap w ((r.1 : Int) - 1), r.2)

/-- Member `Atomic<T,true>::add` (Atomic.h line 208):
`return static_cast<T>(Op::add(_val, rhs, o)) + rhs;` — returns the new
value. -/
def add (w cell rhs : Nat) : Nat × Nat :=
  let r := atomicOp.add w cell rhs
  (wrap w ((r.1 : Int) + (rhs : Int)), r.2)

/-- Member `Atomic<T,true>::sub` (Atomic.h line 209):
`return static_cast<T>(Op::sub(_val, rhs, o)) - rhs;` — returns the new
value. -/
def sub (w cell rhs : Nat) : Nat × Nat :=
  let r := atomicOp.sub w cell rhs
  (wrap w ((r.1 : Int) - (rhs : Int)), r.2)

end AtomicInt

/-! ### Dependency graph and scheduler (modelled from the spec)

`DepSched::bind`, `DepSched::enqueue_priv` and `DepSched::enqueue` live in
`DepTask.cpp`, and the graph classes in `Honey/Graph/Dep.h`; neither file is
in the source tree.  They are modelled from spec sections 4.1 and 4.5.
Tasks are addressed by id; the heap of task objects is a total map from ids
to tasks. -/

/-- Modelled from the spec: the scheduler's dependency graph `_depGraph` — a
mapping from Id to vertex with directed edges; an edge `(u, v)` means v is
upstream of u (an `out` link of u, a prerequisite finished first). -/
structure DepGraph where
  verts : List Nat
  edges : List (Nat × Nat)
deriving DecidableEq, Repr

/-- Modelled from the spec: the `out` (upstream) neighbours of `u` that have
a vertex in the graph.  Spec section 4.5 step 4: neighbours without a vertex
(unregistered) are ignored. -/
def DepGraph.outNbrs (g : DepGraph) (u : Nat) : List Nat :=
  g.verts.filter (fun v => decide ((u, v) ∈ g.edges))

/-- One saturation step of the upstream closure: add every out-neighbour of
a member. -/
def stepClosure (g : DepGraph) (s : List Nat) : List Nat :=
  (s ++ s.flatMap g.outNbrs).dedup

/-- Iterated saturation. -/
def reachAux (g : DepGraph) : Nat → List Nat → List Nat
  | 0, s => s
  | n + 1, s => reachAux g n (stepClosure g s)

/-- Modelled from the spec: the set of tasks the bind pass visits — the
transitive-upstream closure of the root (spec section 4.1
`traverseUpstream`: "visits each reachable vertex once").  `g.verts.length`
saturation rounds reach the fixpoint on a graph with that many vertices. -/
def reachableUp (g : DepGraph) (root : Nat) : List Nat :=
  reachAux g g.verts.length [root]

/-- Whether `u` lies on a directed cycle: it reaches itself through at least
one `out` edge. -/
def DepGraph.cyclicAt (g : DepGraph) (u : Nat) : Bool :=
  decide (u ∈ reachAux g g.verts.length (g.outNbrs u))

/-- Modelled from the spec: the cycle signal of the bind traversal (spec
section 4.1: a back edge reachable from the root). -/
def hasCycleFrom (g : DepGraph) (root : Nat) : Bool :=
  (reachableUp g root).any g.cyclicAt

/-- Modelled from the spec (section 4.5 bind step 3, first abort):
"if `t.sched != null && t.sched != this && t.state != Idle`, abort with
task already active in another scheduler". -/
def conflictForeign (sid : Nat) (t : DepTask) : Bool :=
  decide (t.sched ≠ none) && decide (t.sched ≠ some sid) && t.active

/-- Modelled from the spec (section 4.5 bind step 3, second abort):
"If `t.state != Idle && t.root != root`, abort — the task is already
participating in a different bound subgraph". -/
def conflictRoot (rid : Nat) (t : DepTask) : Bool :=
  t.active && decide (t.root ≠ some rid)

/-- A visited task that makes the bind pass abort (spec section 4.5 step 3). -/
def incompatible (sid rid : Nat) (t : DepTask) : Bool :=
  conflictForeign sid t || conflictRoot rid t

/-- The values a bind pass saves before stamping a task, so an abort can
roll the task back (spec section 4.5 step 5: "roll back `sched/root/bindId`
on all tasks stamped during this pass"). -/
structure BindFrame where
  taskId : Nat
  sched : Option Nat
  root : Option Nat
  bindId : Nat
deriving DecidableEq, Repr

/-- Save a task's pre-stamp `sched/root/bindId`. -/
def saveFrame (u : Nat) (t : DepTask) : BindFrame :=
  ⟨u, t.sched, t.root, t.bindId⟩

/-- Modelled from the spec (section 4.5 bind step 3): "Stamp
`t.bindId = bindId`, set `t.sched = this`, `t.root = root`". -/
def stampT (sid bid rid : Nat) (t : DepTask) : DepTask :=
  { t with sched := some sid, root := some rid, bindId := bid }

/-- Restore a stamped task's saved `sched/root/bindId`. -/
def restoreT (f : BindFrame) (t : DepTask) : DepTask :=
  { t with sched := f.sched, root := f.root, bindId := f.bindId }

/-- The heap of task objects, addressed by id. -/
def TaskMap : Type := Nat → DepTask

/-- Point update of the task heap. -/
def updT (m : TaskMap) (u : Nat) (t : DepTask) : TaskMap :=
  fun j => if j = u then t else m j

/-- Modelled from the spec (section 4.5 step 5): undo the stamps of an
aborted bind pass, newest first. -/
def rollback : List BindFrame → TaskMap → TaskMap
  | [], m => m
  | f :: fs, m => rollback fs (updT m f.taskId (restoreT f (m f.taskId)))

/-- Modelled from the spec (section 4.5 bind steps 2-3): walk the visited
tasks; abort on the first incompatible one, otherwise stamp it and record
the frame for a possible rollback.  Returns (success, task heap, frames). -/
def stampPass (sid bid rid : Nat) :
    List Nat → TaskMap → List BindFrame → Bool × TaskMap × List BindFrame
  | [], m, acc => (true, m, acc)
  | u :: us, m, acc =>
    if incompatible sid rid (m u) then (false, m, acc)
    else stampPass sid bid rid us
      (updT m u (stampT sid bid rid (m u))) (saveFrame u (m u) :: acc)

/-- Modelled from the spec (section 4.5 step 4): `depUpInit` for a visited
task is the count of its visited upstream neighbours. -/
def depUpInitOf (g : DepGraph) (vis : List Nat) (u : Nat) : Nat :=
  (vis.filter (fun v => decide ((u, v) ∈ g.edges))).length

/-- Modelled from the spec (section 4.5 step 4): `depDownInit` for a visited
task is the count of its visited downstream neighbours. -/
def depDownInitOf (g : DepGraph) (vis : List Nat) (u : Nat) : Nat :=
  (vis.filter (fun v => decide ((v, u) ∈ g.edges))).length

/-- Modelled from the spec (section 4.5, on success): initialize
`t.depUp = t.depUpInit`, `t.depDown = t.depDownInit`, set state
`WaitUpstream`; a task with `depUpInit == 0` is submitted to the pool,
moving it through `Queued`. -/
def initT (g : DepGraph) (vis : List Nat) (u : Nat) (t : DepTask) : DepTask :=
  let du := depUpInitOf g vis u
  let dd := depDownInitOf g vis u
  { t with
    depUpWaitInit := du, depUpWait := du
    depDownWaitInit := dd, depDownWait := dd
    state := if du = 0 then DepTask.State.queued else DepTask.State.depUpWait }

/-- Apply `initT` to every visited task. -/
def initPass (g : DepGraph) (vis : List Nat) :
    List Nat → TaskMap → TaskMap
  | [], m => m
  | u :: us, m => initPass g vis us (updT m u (initT g vis u (m u)))

/-- The scheduler state: class `DepSched`'s members `_depGraph` and
`_bindId` (DepTask.h lines 183-188), its identity (`this` in C++) as a
numeric id, and the heap of task objects it can touch.  The pool handle and
the traversal work stack are internal to the missing `DepTask.cpp` and are
not represented. -/
structure DepSched where
  schedId : Nat
  graph : DepGraph
  bindId : Nat
  tasks : TaskMap

/-- Modelled from the spec: `DepSched::bind` (section 4.5, body not in the
source tree).  Allocates a fresh bind id, walks the transitive-upstream
closure of the root stamping each visited task, aborts — rolling every stamp
back — on an incompatible task or on a cycle, and on success initializes the
wait counters and states of the bound subgraph and commits the fresh bind
id.  The scheduler's counter is committed only on success, so a failed bind
leaves the whole state unchanged (spec section 4.5: `enqueue` returns false
"with no state change"). -/
def DepSched.bind (s : DepSched) (rid : Nat) : Bool × DepSched :=
  let bid := s.bindId + 1
  let vis := reachableUp s.graph rid
  let r := stampPass s.schedId bid rid vis s.tasks []
  if r.1 = false then
    (false, { s with tasks := rollback r.2.2 r.2.1 })
  else if hasCycleFrom s.graph rid = true then
    (false, { s with tasks := rollback r.2.2 r.2.1 })
  else
    (true, { s with bindId := bid, tasks := initPass s.graph vis vis r.2.1 })

/-- Modelled from the spec: `DepSched::enqueue` (body not in the source
tree).  Spec section 4.5: returns false if the root is not registered with
this scheduler or is already active; otherwise runs the bind pass. -/
def DepSched.enqueue (s : DepSched) (rid : Nat) : Bool × DepSched :=
  if rid ∈ s.graph.verts then
    if (s.tasks rid).active then (false, s)
    else s.bind rid
  else (false, s)

/-! ### Concrete sample states for witnesses and counterexamples -/

/-- A task in its created state: `Idle`, unregistered, unbound. -/
def idleTask : DepTask :=
  { depNode := ⟨0, [], []⟩
    state := DepTask.State.idle
    regCount := 0
    sched := none
    root := none
    bindId := 0
    bindDirty := false
    depUpWaitInit := 0
    depUpWait := 0
    depDownWaitInit := 0
    depDownWait := 0
    onStack := false
    thread := none
    priority := 0 }

/-- A task currently executing its functor on a worker thread. -/
def execTask : DepTask :=
  { idleTask with
    state := DepTask.State.exec
    sched := some 7
    root := some 1
    bindId := 3
    thread := some ⟨false, none, 0⟩ }

/-- A task at the downstream barrier, about to finalize. -/
def downWaitTask : DepTask :=
  { execTask with state := DepTask.State.depDownWait, thread := none }

/-- A freshly armed result cell whose callable yields the value 5. -/
def armedCell : PackagedTask :=
  { func := Outcome.value 5
    st := { phase := CellPhase.unset, result := none }
    futureRetrieved := false }

/-- A cell whose future has been retrieved and whose callable has run. -/
def retrievedCell : PackagedTask :=
  { func := Outcome.value 5
    st := { phase := CellPhase.readyPending, result := some (Outcome.value 5) }
    futureRetrieved := true }

/-- A two-vertex graph with a cycle: 1 → 2 → 1. -/
def cycleGraph : DepGraph :=
  { verts := [1, 2], edges := [(1, 2), (2, 1)] }

/-- A task heap where every id holds the created-idle task. -/
def idleHeap : TaskMap := fun _ => idleTask

/-- A scheduler owning the cyclic two-task graph. -/
def cycleSched : DepSched :=
  { schedId := 7, graph := cycleGraph, bindId := 0, tasks := idleHeap }

/-- A scheduler with no registered tasks. -/
def emptySched : DepSched :=
  { schedId := 7, graph := ⟨[], []⟩, bindId := 0, tasks := idleHeap }

/-! ## Helper lemmas -/

theorem wrap_natCast (w a : Nat) : wrap w ((a : Int)) = a % 2 ^ w := by
  unfold wrap
  rw [show ((2 : Int) ^ w) = (((2 ^ w : Nat) : Int)) by push_cast; ring]
  rw [← Int.natCast_mod]
  exact Int.toNat_natCast _

theorem wrap_lt (w : Nat) (x : Int) : wrap w x < 2 ^ w := by
  unfold wrap
  have hN : (0 : Int) < (2 : Int) ^ w := by positivity
  have h1 : x % (2 : Int) ^ w < (2 : Int) ^ w := Int.emod_lt_of_pos x hN
  have h2 : ((2 : Int) ^ w) = (((2 ^ w : Nat) : Int)) := by push_cast; ring
  rw [h2] at h1
  omega

theorem wrap_add_cancel (w v r : Nat) :
    (wrap w ((v : Int) - (r : Int)) + r) % 2 ^ w = v % 2 ^ w := by
  have hN : (0 : Int) < (2 : Int) ^ w := by positivity
  have hnn : 0 ≤ ((v : Int) - (r : Int)) % (2 : Int) ^ w :=
    Int.emod_nonneg _ (ne_of_gt hN)
  have hcast : (((wrap w ((v : Int) - (r : Int)) + r) % 2 ^ w : Nat) : Int)
      = ((v % 2 ^ w : Nat) : Int) := by
    push_cast
    unfold wrap
    rw [Int.toNat_of_nonneg hnn]
    rw [Int.emod_add_emod, sub_add_cancel]
  exact_mod_cast hcast

/-! ## Claim theorems: task members visible in DepTask.h -/

/-- C5: for a task with `regCount == 0`, `DepTask::setId` sets the
dependency node's key and `DepTask::deps` returns the mutable dependency
node; for a task with `regCount > 0` both operations fail their assertion,
so a task's id and edge sets are never mutated while it is registered in any
scheduler. -/
theorem depTask_setId_deps_c5 (t : DepTask) (i : Nat) :
    (t.regCount = 0 →
      t.setId i = Except.ok { t with depNode := t.depNode.setKey i } ∧
      t.deps = Except.ok t.depNode)
    ∧ (0 < t.regCount →
      t.setId i = Except.error "Must unregister prior to modifying" ∧
      t.deps = Except.error "Must unregister prior to modifying") := by
  constructor
  · intro h
    simp [DepTask.setId, DepTask.deps, h]
  · intro h
    have h0 : t.regCount ≠ 0 := by omega
    simp [DepTask.setId, DepTask.deps, h0]

/-- C6: on a task with no worker thread attached, `DepTask::interrupt` is a
no-op — it forwards nothing and changes no observable task state; when a
worker thread is attached it forwards the interrupt to that thread, flagging
it with the given reason. -/
theorem depTask_interrupt_c6 (t : DepTask) (e : Nat) :
    (t.thread = none → t.interrupt e = t)
    ∧ (∀ th, t.thread = some th →
        t.interrupt e = { t with thread := some (th.interrupt e) }
        ∧ (th.interrupt e).intFlag = true
        ∧ (th.interrupt e).intReason = some e) := by
  constructor
  · intro h
    simp [DepTask.interrupt, h]
  · intro th h
    refine ⟨?_, rfl, rfl⟩
    simp [DepTask.interrupt, h]

/-- C9: on a task with no worker thread attached, `DepTask::interruptRequested`
returns false rather than failing; it queries the worker thread's interrupt
flag only while a thread is attached. -/
theorem depTask_interruptRequested_c9 (t : DepTask) :
    (t.thread = none → t.interruptRequested = false)
    ∧ (∀ th, t.thread = some th → t.interruptRequested = th.intFlag) := by
  constructor
  · intro h
    simp [DepTask.interruptRequested, h]
  · intro th h
    simp [DepTask.interruptRequested, h, ThreadHandle.interruptRequested]

/-- C8: `DepTask::active` returns true exactly when the task's state is not
`Idle`; under the invariant `state == Idle ⇔ sched == null`, a task with no
scheduler reports inactive; and `enqueue` on an active root returns false
with no state change, so a root can be enqueued again only once it has
returned to `Idle`. -/
theorem depTask_active_c8 (t : DepTask) (s : DepSched) (rid : Nat)
    (hinv : t.state = DepTask.State.idle ↔ t.sched = none) :
    (t.active = true ↔ t.state ≠ DepTask.State.idle)
    ∧ (t.sched = none → t.active = false)
    ∧ ((s.tasks rid).active = true → s.enqueue rid = (false, s)) := by
  refine ⟨by simp [DepTask.active], ?_, ?_⟩
  · intro h
    have hs : t.state = DepTask.State.idle := hinv.mpr h
    simp [DepTask.active, hs]
  · intro h
    unfold DepSched.enqueue
    by_cases hv : rid ∈ s.graph.verts
    · simp [hv, h]
    · simp [hv]

/-- Witness for C8 at the created-idle task and the sample scheduler. -/
theorem depTask_active_c8_witness :
    (idleTask.state = DepTask.State.idle ↔ idleTask.sched = none)
    ∧ ((idleTask.active = true ↔ idleTask.state ≠ DepTask.State.idle)
      ∧ (idleTask.sched = none → idleTask.active = false)
      ∧ ((cycleSched.tasks 1).active = true →
          cycleSched.enqueue 1 = (false, cycleSched))) :=
  ⟨by decide, depTask_active_c8 idleTask cycleSched 1 (by decide)⟩

/-! ## Claim theorems: packaged callable / future -/

theorem future_ok_of_not_retrieved (c : PackagedTask)
    (h : c.futureRetrieved = false) :
    DepTask_.future c = Except.ok ({ c with futureRetrieved := true }, c.st) := by
  simp [DepTask_.future, PackagedTask.future, h]

/-- C4: the execution step between `Executing` and `WaitDownstream` invokes
the packaged callable via `invoke_delayedReady` (DepTask.h line 128), which
captures the callable's value or failure but leaves the cell ready-pending,
so a consumer blocked in `Future::get()` is not released by the invocation
itself. -/
theorem depTask_exec_c4 (t : DepTask) (c : PackagedTask)
    (h : t.state = DepTask.State.exec) :
    execStep t c
      = ({ t with state := DepTask.State.depDownWait,
                  depDownWait := t.depDownWaitInit }, c.invoke_delayedReady)
    ∧ (c.invoke_delayedReady).st.result = some c.func
    ∧ (c.invoke_delayedReady).st.phase = CellPhase.readyPending
    ∧ (c.invoke_delayedReady).st.get = none := by
  refine ⟨rfl, rfl, rfl, ?_⟩
  simp [FutureState.get, PackagedTask.invoke_delayedReady]

/-- Witness for C4 at the executing sample task and the armed sample cell. -/
theorem depTask_exec_c4_witness :
    execTask.state = DepTask.State.exec
    ∧ (armedCell.invoke_delayedReady).st.get = none :=
  ⟨by decide, (depTask_exec_c4 execTask armedCell (by decide)).2.2.2⟩

/-- C7: for one arming of the result cell, the first call to
`DepTask_::future` succeeds, every subsequent call before the next re-arming
fails with `FutureAlreadyRetrieved`, and after a re-arm a future can be
obtained again. -/
theorem depTask_future_c7 (c : PackagedTask) (h : c.futureRetrieved = false) :
    DepTask_.future c = Except.ok ({ c with futureRetrieved := true }, c.st)
    ∧ (∀ c1 fs, DepTask_.future c = Except.ok (c1, fs) →
        DepTask_.future c1 = Except.error FutureErr.futureAlreadyRetrieved)
    ∧ (∀ c2 : PackagedTask, c2.futureRetrieved = true →
        DepTask_.future c2 = Except.error FutureErr.futureAlreadyRetrieved)
    ∧ (∃ p, DepTask_.future ((c.setReady true).1) = Except.ok p) := by
  have hok := future_ok_of_not_retrieved c h
  refine ⟨hok, ?_, ?_, ?_⟩
  · intro c1 fs heq
    rw [hok] at heq
    have hc1 : c1 = { c with futureRetrieved := true } := by
      injection heq with h2
      exact (congrArg Prod.fst h2).symm
    subst hc1
    simp [DepTask_.future, PackagedTask.future]
  · intro c2 h2
    simp [DepTask_.future, PackagedTask.future, h2]
  · exact ⟨_, future_ok_of_not_retrieved (c.setReady true).1 (by
      simp [PackagedTask.setReady])⟩

/-- Witness for C7 at the armed sample cell. -/
theorem depTask_future_c7_witness :
    armedCell.futureRetrieved = false
    ∧ DepTask_.future armedCell
        = Except.ok ({ armedCell with futureRetrieved := true }, armedCell.st) :=
  ⟨by decide, (depTask_future_c7 armedCell (by decide)).1⟩

/-- C3 counterexample: at the sample task waiting at the downstream barrier
and the sample retrieved cell, the cell produced by `finalize_` differs from
the cell a `setReady` call with argument false would produce — the source
call at DepTask.h line 129 passes true. -/
theorem depTask_resetFunctor_c3_cex :
    (finalize_ downWaitTask retrievedCell).2.1 ≠ (retrievedCell.setReady false).1 := by
  decide

/-- C3 (amended): on the transition from `WaitDownstream` back to `Idle` the
result cell is reset by calling `setReady` with argument true — the call
publishes the pending result to waiters and re-arms the cell — so that a
fresh `Future` can be obtained for the next execution. -/
theorem depTask_resetFunctor_c3 (t : DepTask) (c : PackagedTask)
    (h : t.state = DepTask.State.depDownWait) :
    (finalize_ t c).1.state = DepTask.State.idle
    ∧ (finalize_ t c).2.1 = (c.setReady true).1
    ∧ (finalize_ t c).2.1.futureRetrieved = false
    ∧ (∃ p, DepTask_.future ((finalize_ t c).2.1) = Except.ok p)
    ∧ (finalize_ t c).2.2.phase = CellPhase.ready
    ∧ (finalize_ t c).2.2.result = c.st.result := by
  refine ⟨rfl, rfl, ?_, ?_, rfl, rfl⟩
  · simp [finalize_, DepTask_.resetFunctor, PackagedTask.setReady]
  · exact ⟨_, future_ok_of_not_retrieved (finalize_ t c).2.1 (by
      simp [finalize_, DepTask_.resetFunctor, PackagedTask.setReady])⟩

/-- Witness for C3 at the barrier sample task and the retrieved sample
cell. -/
theorem depTask_resetFunctor_c3_witness :
    downWaitTask.state = DepTask.State.depDownWait
    ∧ (finalize_ downWaitTask retrievedCell).2.1.futureRetrieved = false :=
  ⟨by decide, (depTask_resetFunctor_c3 downWaitTask retrievedCell (by decide)).2.2.1⟩

/-! ## Claim theorem: atomic operations -/

/-- C10: in the sequential embedding, `atomic::Op`'s inc, dec, add and sub
return the initial cell value and leave the cell holding the updated value,
while the integer `Atomic` wrapper's pre-increment, pre-decrement, add and
sub return the updated value (add returns `v + rhs`), with arithmetic
wrapping modulo `2 ^ w` for a `w`-bit representation. -/
theorem atomic_ops_c10 (w v rhs : Nat) :
    ((atomicOp.inc w v).1 = v ∧ (atomicOp.inc w v).2 = (v + 1) % 2 ^ w)
    ∧ ((atomicOp.dec w v).1 = v
      ∧ ((atomicOp.dec w v).2 + 1) % 2 ^ w = v % 2 ^ w
      ∧ (atomicOp.dec w v).2 < 2 ^ w)
    ∧ ((atomicOp.add w v rhs).1 = v
      ∧ (atomicOp.add w v rhs).2 = (v + rhs) % 2 ^ w)
    ∧ ((atomicOp.sub w v rhs).1 = v
      ∧ ((atomicOp.sub w v rhs).2 + rhs) % 2 ^ w = v % 2 ^ w
      ∧ (atomicOp.sub w v rhs).2 < 2 ^ w)
    ∧ ((AtomicInt.incPre w v).1 = (v + 1) % 2 ^ w
      ∧ (AtomicInt.incPre w v).1 = (AtomicInt.incPre w v).2)
    ∧ ((AtomicInt.decPre w v).1 = (AtomicInt.decPre w v).2)
    ∧ ((AtomicInt.add w v rhs).1 = (v + rhs) % 2 ^ w
      ∧ (AtomicInt.add w v rhs).1 = (AtomicInt.add w v rhs).2)
    ∧ ((AtomicInt.sub w v rhs).1 = (AtomicInt.sub w v rhs).2) := by
  have hinc : wrap w ((v : Int) + 1) = (v + 1) % 2 ^ w := by
    rw [show ((v : Int) + 1) = (((v + 1 : Nat) : Int)) by push_cast; ring]
    exact wrap_natCast w (v + 1)
  have hadd : wrap w ((v : Int) + (rhs : Int)) = (v + rhs) % 2 ^ w := by
    rw [show ((v : Int) + (rhs : Int)) = (((v + rhs : Nat) : Int)) by push_cast; ring]
    exact wrap_natCast w (v + rhs)
  have hdec : (wrap w ((v : Int) - 1) + 1) % 2 ^ w = v % 2 ^ w := by
    have := wrap_add_cancel w v 1
    simpa using this
  refine ⟨⟨rfl, hinc⟩, ⟨rfl, hdec, wrap_lt w _⟩,
    ⟨rfl, hadd⟩, ⟨rfl, wrap_add_cancel w v rhs, wrap_lt w _⟩,
    ⟨hinc, rfl⟩, rfl, ⟨hadd, rfl⟩, rfl⟩

/-! ## Helper lemmas: task heap updates and the bind pass -/

theorem ne_of_mem_tail {u v : Nat} {vs : List Nat}
    (hnd : v ∉ vs) (h2 : u ∈ vs) : u ≠ v :=
  fun he => hnd (he ▸ h2)

theorem updT_same (m : TaskMap) (u : Nat) (t : DepTask) : updT m u t u = t := by
  simp [updT]

theorem updT_other (m : TaskMap) (u : Nat) (t : DepTask) (j : Nat)
    (h : j ≠ u) : updT m u t j = m j := by
  simp [updT, h]

theorem updT_updT (m : TaskMap) (u : Nat) (a b : DepTask) :
    updT (updT m u a) u b = updT m u b := by
  funext j
  by_cases h : j = u <;> simp [updT, h]

theorem updT_self (m : TaskMap) (u : Nat) : updT m u (m u) = m := by
  funext j
  by_cases h : j = u <;> simp [updT, h]

theorem restore_stamp (u sid bid rid : Nat) (t : DepTask) :
    restoreT (saveFrame u t) (stampT sid bid rid t) = t := by
  cases t
  rfl

/-- An aborted stamping pass rolls back to exactly the heap it started
from. -/
theorem rollback_stampPass (sid bid rid : Nat) :
    ∀ (vis : List Nat) (m : TaskMap) (acc : List BindFrame),
      rollback (stampPass sid bid rid vis m acc).2.2
        (stampPass sid bid rid vis m acc).2.1 = rollback acc m := by
  intro vis
  induction vis with
  | nil => intro m acc; rfl
  | cons u us ih =>
    intro m acc
    cases hc : incompatible sid rid (m u)
    · have hstep : stampPass sid bid rid (u :: us) m acc
          = stampPass sid bid rid us (updT m u (stampT sid bid rid (m u)))
              (saveFrame u (m u) :: acc) := by
        simp [stampPass, hc]
      rw [hstep, ih]
      show rollback acc (updT (updT m u (stampT sid bid rid (m u))) u
        (restoreT (saveFrame u (m u))
          ((updT m u (stampT sid bid rid (m u))) u))) = rollback acc m
      rw [updT_same, restore_stamp, updT_updT, updT_self]
    · simp [stampPass, hc]

theorem nodup_stepClosure (g : DepGraph) (s : List Nat) :
    (stepClosure g s).Nodup :=
  List.nodup_dedup _

theorem nodup_reachAux (g : DepGraph) :
    ∀ (n : Nat) (s : List Nat), (reachAux g (n + 1) s).Nodup := by
  intro n
  induction n with
  | zero => intro s; exact nodup_stepClosure g s
  | succ k ih => intro s; exact ih (stepClosure g s)

theorem nodup_reachableUp (g : DepGraph) (rid : Nat) :
    (reachableUp g rid).Nodup := by
  have h : reachableUp g rid = reachAux g g.verts.length [rid] := rfl
  rw [h]
  rcases g.verts.length with _ | n
  · exact List.nodup_singleton rid
  · exact nodup_reachAux g n [rid]

theorem stampPass_notmem (sid bid rid : Nat) :
    ∀ (vis : List Nat) (m : TaskMap) (acc : List BindFrame) (u : Nat),
      u ∉ vis → (stampPass sid bid rid vis m acc).2.1 u = m u := by
  intro vis
  induction vis with
  | nil => intro m acc u _; rfl
  | cons v vs ih =>
    intro m acc u hu
    have hv : u ≠ v := fun h => hu (h ▸ List.mem_cons_self v vs)
    have hvs : u ∉ vs := fun h => hu (List.mem_cons_of_mem v h)
    cases hc : incompatible sid rid (m v)
    · rw [show stampPass sid bid rid (v :: vs) m acc
          = stampPass sid bid rid vs (updT m v (stampT sid bid rid (m v)))
              (saveFrame v (m v) :: acc) by simp [stampPass, hc]]
      rw [ih _ _ u hvs]
      exact updT_other _ _ _ _ hv
    · simp [stampPass, hc]

/-- The stamping pass succeeds exactly when no visited task is
incompatible. -/
theorem stampPass_ok_iff (sid bid rid : Nat) :
    ∀ (vis : List Nat) (m : TaskMap) (acc : List BindFrame), vis.Nodup →
      ((stampPass sid bid rid vis m acc).1 = true ↔
        ∀ u ∈ vis, incompatible sid rid (m u) = false) := by
  intro vis
  induction vis with
  | nil => intro m acc _; simp [stampPass]
  | cons v vs ih =>
    intro m acc hnd
    rw [List.nodup_cons] at hnd
    cases hc : incompatible sid rid (m v)
    · rw [show stampPass sid bid rid (v :: vs) m acc
          = stampPass sid bid rid vs (updT m v (stampT sid bid rid (m v)))
              (saveFrame v (m v) :: acc) by simp [stampPass, hc]]
      rw [ih _ _ hnd.2]
      constructor
      · intro hall u hu
        rcases List.mem_cons.mp hu with h1 | h2
        · subst h1; exact hc
        · have h3 := hall u h2
          rwa [updT_other _ _ _ _ (ne_of_mem_tail hnd.1 h2)] at h3
      · intro hall u hu
        rw [updT_other _ _ _ _ (ne_of_mem_tail hnd.1 hu)]
        exact hall u (List.mem_cons_of_mem v hu)
    · rw [show stampPass sid bid rid (v :: vs) m acc = (false, m, acc) by
        simp [stampPass, hc]]
      constructor
      · intro h0; exact absurd h0 (by simp)
      · intro hall
        have h1 := hall v (List.mem_cons_self v vs)
        rw [hc] at h1
        exact absurd h1 (by simp)

/-- On success, every visited task is exactly its stamped original. -/
theorem stampPass_mem (sid bid rid : Nat) :
    ∀ (vis : List Nat) (m : TaskMap) (acc : List BindFrame), vis.Nodup →
      (stampPass sid bid rid vis m acc).1 = true →
      ∀ u ∈ vis,
        (stampPass sid bid rid vis m acc).2.1 u = stampT sid bid rid (m u) := by
  intro vis
  induction vis with
  | nil => intro m acc _ _ u hu; cases hu
  | cons v vs ih =>
    intro m acc hnd hok u hu
    rw [List.nodup_cons] at hnd
    cases hc : incompatible sid rid (m v)
    · have hstep : stampPass sid bid rid (v :: vs) m acc
          = stampPass sid bid rid vs (updT m v (stampT sid bid rid (m v)))
              (saveFrame v (m v) :: acc) := by
        simp [stampPass, hc]
      rw [hstep] at hok ⊢
      rcases List.mem_cons.mp hu with h1 | h2
      · subst h1
        rw [stampPass_notmem sid bid rid vs _ _ u hnd.1]
        exact updT_same _ _ _
      · rw [ih _ _ hnd.2 hok u h2]
        rw [updT_other _ _ _ _ (ne_of_mem_tail hnd.1 h2)]
    · rw [show stampPass sid bid rid (v :: vs) m acc = (false, m, acc) by
        simp [stampPass, hc]] at hok
      exact absurd hok (by simp)

theorem initPass_notmem (g : DepGraph) (vis : List Nat) :
    ∀ (l : List Nat) (m : TaskMap) (u : Nat), u ∉ l →
      initPass g vis l m u = m u := by
  intro l
  induction l with
  | nil => intro m u _; rfl
  | cons v vs ih =>
    intro m u hu
    have hv : u ≠ v := fun h => hu (h ▸ List.mem_cons_self v vs)
    have hvs : u ∉ vs := fun h => hu (List.mem_cons_of_mem v h)
    show initPass g vis vs (updT m v (initT g vis v (m v))) u = m u
    rw [ih _ u hvs]
    exact updT_other _ _ _ _ hv

theorem initPass_mem (g : DepGraph) (vis : List Nat) :
    ∀ (l : List Nat) (m : TaskMap), l.Nodup →
      ∀ u ∈ l, initPass g vis l m u = initT g vis u (m u) := by
  intro l
  induction l with
  | nil => intro m _ u hu; cases hu
  | cons v vs ih =>
    intro m hnd u hu
    rw [List.nodup_cons] at hnd
    show initPass g vis vs (updT m v (initT g vis v (m v))) u
      = initT g vis u (m u)
    rcases List.mem_cons.mp hu with h1 | h2
    · subst h1
      rw [initPass_notmem g vis vs _ u hnd.1]
      exact updT_same _ _ _
    · rw [ih _ hnd.2 u h2]
      rw [updT_other _ _ _ _ (ne_of_mem_tail hnd.1 h2)]

theorem stampT_fields (sid bid rid : Nat) (t : DepTask) :
    (stampT sid bid rid t).sched = some sid
    ∧ (stampT sid bid rid t).root = some rid
    ∧ (stampT sid bid rid t).bindId = bid :=
  ⟨rfl, rfl, rfl⟩

theorem initT_fields (g : DepGraph) (vis : List Nat) (u : Nat) (t : DepTask) :
    (initT g vis u t).sched = t.sched
    ∧ (initT g vis u t).root = t.root
    ∧ (initT g vis u t).bindId = t.bindId :=
  ⟨rfl, rfl, rfl⟩

theorem initT_state_ne_idle (g : DepGraph) (vis : List Nat) (u : Nat)
    (t : DepTask) : (initT g vis u t).state ≠ DepTask.State.idle := by
  by_cases h : depUpInitOf g vis u = 0 <;> simp [initT, h]

/-- Evaluated form of the bind pass: a failed pass hands back the untouched
scheduler. -/
theorem bind_eq (s : DepSched) (rid : Nat) :
    s.bind rid =
      (if (stampPass s.schedId (s.bindId + 1) rid (reachableUp s.graph rid)
            s.tasks []).1 = false
        then (false, s)
       else if hasCycleFrom s.graph rid = true then (false, s)
       else (true, DepSched.mk s.schedId s.graph (s.bindId + 1)
         (initPass s.graph (reachableUp s.graph rid) (reachableUp s.graph rid)
           (stampPass s.schedId (s.bindId + 1) rid (reachableUp s.graph rid)
             s.tasks []).2.1))) := by
  simp only [DepSched.bind]
  rw [rollback_stampPass s.schedId (s.bindId + 1) rid (reachableUp s.graph rid)
    s.tasks []]
  rfl

/-! ## Claim theorems: scheduler bind and enqueue -/

/-- C1: for a registered task set whose dependency edges contain a cycle
reachable from the enqueued root, `DepSched::enqueue` returns false and
leaves every task's state unchanged — the bind pass rolls back
`sched`, `root` and `bindId` on every task it stamped, so no task leaves
`Idle`. -/
theorem depSched_enqueue_cycle_c1 (s : DepSched) (rid : Nat)
    (hcyc : hasCycleFrom s.graph rid = true) :
    s.enqueue rid = (false, s) := by
  unfold DepSched.enqueue
  by_cases hv : rid ∈ s.graph.verts
  · rw [if_pos hv]
    cases ha : (s.tasks rid).active
    · simp only [Bool.false_eq_true, if_false]
      rw [bind_eq]
      cases hok : (stampPass s.schedId (s.bindId + 1) rid
          (reachableUp s.graph rid) s.tasks []).1
      · simp
      · simp [hcyc]
    · simp
  · rw [if_neg hv]

/-- Witness for C1 at the sample scheduler whose two registered tasks form
the cycle 1 → 2 → 1. -/
theorem depSched_enqueue_cycle_c1_witness :
    hasCycleFrom cycleSched.graph 1 = true
    ∧ cycleSched.enqueue 1 = (false, cycleSched) :=
  ⟨by decide, depSched_enqueue_cycle_c1 cycleSched 1 (by decide)⟩

/-- C2: `DepSched::enqueue(root)` returns false, with no state change,
exactly when the root is not registered with this scheduler, the root is
already active, some task reachable upstream of the root is active in an
incompatible state (bound to another scheduler or to a different root while
not `Idle`), or a cycle is detected; otherwise it binds the reachable
upstream subgraph — stamping `sched`, `root` and the fresh `bindId` on every
reachable task, all of which leave `Idle` — and returns true. -/
theorem depSched_enqueue_c2 (s : DepSched) (rid : Nat) :
    ((s.enqueue rid).1 = false ↔
      (rid ∉ s.graph.verts ∨ (s.tasks rid).active = true
        ∨ (∃ u ∈ reachableUp s.graph rid,
            incompatible s.schedId rid (s.tasks u) = true)
        ∨ hasCycleFrom s.graph rid = true))
    ∧ ((s.enqueue rid).1 = false → (s.enqueue rid).2 = s)
    ∧ ((s.enqueue rid).1 = true →
        (s.enqueue rid).2.bindId = s.bindId + 1
        ∧ ∀ u ∈ reachableUp s.graph rid,
            ((s.enqueue rid).2.tasks u).sched = some s.schedId
            ∧ ((s.enqueue rid).2.tasks u).root = some rid
            ∧ ((s.enqueue rid).2.tasks u).bindId = s.bindId + 1
            ∧ ((s.enqueue rid).2.tasks u).state ≠ DepTask.State.idle) := by
  have hnd := nodup_reachableUp s.graph rid
  have hiff := stampPass_ok_iff s.schedId (s.bindId + 1) rid
    (reachableUp s.graph rid) s.tasks [] hnd
  by_cases hv : rid ∈ s.graph.verts
  · cases ha : (s.tasks rid).active
    · have hen : s.enqueue rid = s.bind rid := by
        unfold DepSched.enqueue
        rw [if_pos hv, ha]
        simp
      cases hok : (stampPass s.schedId (s.bindId + 1) rid
          (reachableUp s.graph rid) s.tasks []).1
      · -- stamping aborted on an incompatible task
        have hx : ∃ u ∈ reachableUp s.graph rid,
            incompatible s.schedId rid (s.tasks u) = true := by
          have hnall : ¬ ∀ u ∈ reachableUp s.graph rid,
              incompatible s.schedId rid (s.tasks u) = false := by
            intro hall
            rw [hiff.mpr hall] at hok
            exact absurd hok (by simp)
          push_neg at hnall
          obtain ⟨u, hu, hne⟩ := hnall
          exact ⟨u, hu, by
            cases hb : incompatible s.schedId rid (s.tasks u)
            · exact absurd hb hne
            · rfl⟩
        have henq : s.enqueue rid = (false, s) := by
          rw [hen, bind_eq, hok]
          simp
        rw [henq]
        refine ⟨?_, fun _ => rfl, ?_⟩
        · constructor
          · intro _
            exact Or.inr (Or.inr (Or.inl hx))
          · intro _
            rfl
        · intro h
          exact absurd h (by simp)
      · cases hcyc : hasCycleFrom s.graph rid
        · -- the bind succeeds
          have henq : s.enqueue rid = (true, DepSched.mk s.schedId s.graph
              (s.bindId + 1)
              (initPass s.graph (reachableUp s.graph rid)
                (reachableUp s.graph rid)
                (stampPass s.schedId (s.bindId + 1) rid
                  (reachableUp s.graph rid) s.tasks []).2.1)) := by
            rw [hen, bind_eq, hok, hcyc]
            simp
          refine ⟨?_, ?_, ?_⟩
          · rw [henq]
            constructor
            · intro h
              exact absurd h (by simp)
            · intro hD
              rcases hD with h1 | h2 | h3 | h4
              · exact absurd hv h1
              · exact absurd h2 (by simp)
              · obtain ⟨u, hu, hbad⟩ := h3
                rw [hiff.mp hok u hu] at hbad
                exact absurd hbad (by simp)
              · exact absurd h4 (by simp)
          · rw [henq]
            intro h
            exact absurd h (by simp)
          · intro _
            constructor
            · rw [henq]
            · intro u hu
              have htask : (s.enqueue rid).2.tasks u
                  = initT s.graph (reachableUp s.graph rid) u
                      (stampT s.schedId (s.bindId + 1) rid (s.tasks u)) := by
                rw [henq]
                show initPass s.graph (reachableUp s.graph rid)
                    (reachableUp s.graph rid)
                    (stampPass s.schedId (s.bindId + 1) rid
                      (reachableUp s.graph rid) s.tasks []).2.1 u = _
                rw [initPass_mem s.graph (reachableUp s.graph rid)
                  (reachableUp s.graph rid) _ hnd u hu]
                rw [stampPass_mem s.schedId (s.bindId + 1) rid
                  (reachableUp s.graph rid) s.tasks [] hnd hok u hu]
              rw [htask]
              exact ⟨rfl, rfl, rfl,
                initT_state_ne_idle s.graph (reachableUp s.graph rid) u _⟩
        · -- cycle detected
          have henq : s.enqueue rid = (false, s) := by
            rw [hen, bind_eq, hok, hcyc]
            simp
          rw [henq]
          refine ⟨?_, fun _ => rfl, ?_⟩
          · constructor
            · intro _
              exact Or.inr (Or.inr (Or.inr rfl))
            · intro _
              rfl
          · intro h
            exact absurd h (by simp)
    · -- the root is already active
      have henq : s.enqueue rid = (false, s) := by
        unfold DepSched.enqueue
        rw [if_pos hv, ha]
        simp
      rw [henq]
      refine ⟨?_, fun _ => rfl, ?_⟩
      · constructor
        · intro _
          exact Or.inr (Or.inl rfl)
        · intro _
          rfl
      · intro h
        exact absurd h (by simp)
  · -- the root is not registered with this scheduler
    have henq : s.enqueue rid = (false, s) := by
      unfold DepSched.enqueue
      rw [if_neg hv]
    rw [henq]
    refine ⟨?_, fun _ => rfl, ?_⟩
    · constructor
      · intro _
        exact Or.inl hv
      · intro _
        rfl
    · intro h
      exact absurd h (by simp)

end Honeycomb
